import Mathlib

/-!
Verification of the runway sync core: a shallow embedding of the data
model and the operations of `src/commands/sync.rs`, `src/commands/watch.rs`
and `src/codegen/mod.rs`, with theorems checking the natural-language
specification against the code.

Conventions of the embedding:
- Rust `HashMap<String, V>` values are association lists `List (String × V)`
  together with `getEntry` (lookup) and `putEntry` (overwriting insert);
  the claims observe maps only through lookups, so the entry order is
  irrelevant.
- Filesystem facts (`Path::exists`) are an explicit predicate
  `onDisk : String → Bool`; I/O and network outcomes are explicit oracle
  parameters, so the control flow of the source stays literal while the
  external world is a value.
-/

namespace Runway

/-- Association-list lookup, the embedding of `HashMap::get` /
`BTreeMap::get` (first match wins; the maps of the source never hold a
key twice). -/
def getEntry {α : Type} (k : String) : List (String × α) → Option α
  | [] => none
  | (k', v) :: rest => if k' = k then some v else getEntry k rest

/-- Association-list overwriting insert, the embedding of
`HashMap::insert`. -/
def putEntry {α : Type} (k : String) (v : α) : List (String × α) → List (String × α)
  | [] => [(k, v)]
  | (k', v') :: rest => if k' = k then (k, v) :: rest else (k', v') :: putEntry k v rest

/-- Modelled from the spec: the per-(asset, target) record
`state::TargetState` (`state.rs` is not among the staged source files; the
field shape is fixed by spec section 3 and by the literal constructions
in `commands/sync.rs`). Paths are their strings. -/
structure TargetState where
  hash : String
  id : String
  local_path : Option String
deriving DecidableEq

/-- Modelled from the spec: the per-asset record of the persisted state,
holding only the per-target map (spec section 3, `State`). -/
structure AssetState where
  targets : List (String × TargetState)
deriving DecidableEq

/-- Modelled from the spec: the persisted snapshot, a map from asset ident
to `AssetState`, iterated in lexicographic ident order (spec section 3). -/
structure State where
  assets : List (String × AssetState)
deriving DecidableEq

/-- The in-memory `Asset` of `asset.rs` (contents are dropped: the claims
observe only the ident, the discovery hash and the per-target map; `path`
is the filesystem path string). -/
structure Asset where
  ident : String
  path : String
  hash : String
  targets : List (String × TargetState)
deriving DecidableEq

/-- The soft/fatal error values of `SyncError` in `commands/sync.rs` that
the claims observe (`anyhow` type erasure folds every soft error into this
one type). -/
inductive SyncError where
  | unsupported (path : String)
  | uploadFailed
  | uploadNotDone
  | hadErrors (error_count : Nat)
  | ioError
  | robloxApi
  | rbxCloud
  | codegenFailed
  | stateWriteFailed
deriving DecidableEq

/-- `SyncSession::iter_needs_sync`'s filter predicate (`commands/sync.rs`
lines 270-308), for one asset: `force` short-circuits, else the previous
state record, the previous target record, the hash comparison, and (only
when `check_local_path`) the recorded local artifact's existence decide. -/
def needs_sync (force : Bool) (prev_asset : Option AssetState) (target_key : String)
    (asset_hash : String) (check_local_path : Bool) (onDisk : String → Bool) : Bool :=
  if force then
    true
  else
    match prev_asset with
    | none => true
    | some prev =>
      match getEntry target_key prev.targets with
      | none => true
      | some prev_ts =>
        if prev_ts.hash ≠ asset_hash then
          true
        else
          if check_local_path then
            match prev_ts.local_path with
            | none => true
            | some p => !onDisk p
          else
            false

/-- `SyncSession::iter_needs_sync` (`commands/sync.rs` lines 263-309): the
discovered assets filtered by `needs_sync` against the previous state. -/
def iter_needs_sync (force : Bool) (assets : List Asset) (prev_state : State)
    (target_key : String) (check_local_path : Bool) (onDisk : String → Bool) : List Asset :=
  assets.filter fun a =>
    needs_sync force (getEntry a.ident prev_state.assets) target_key a.hash
      check_local_path onDisk

/-- The seeding of an asset's target map from the previous state
(`commands/sync.rs` lines 233-239). -/
def seed_targets (prev_state : State) (ident : String) : List (String × TargetState) :=
  match getEntry ident prev_state.assets with
  | some prev => prev.targets
  | none => []

/-- `SyncSession::process_entry` (`commands/sync.rs` lines 214-248) for a
regular file: build the in-memory asset with the discovery hash and the
target map seeded from the previous state. -/
def process_entry (prev_state : State) (ident path hash : String) : Asset :=
  { ident := ident, path := path, hash := hash, targets := seed_targets prev_state ident }

/-- The `SyncStrategy` interface of `commands/sync.rs`, with the external
world as oracles: `succeeds` is whether the per-asset work (preprocess plus
file write, or the whole create/poll/remap state machine) completes;
`result_id` and `result_local_path` are the fields of the `TargetState` the
strategy inserts on success; `failure` is the soft error it raises on
failure; `check_local_path` is the literal argument each strategy passes to
`iter_needs_sync`. -/
structure StrategyModel where
  check_local_path : Bool
  succeeds : Asset → Bool
  result_id : Asset → String
  result_local_path : Asset → Option String
  failure : SyncError

/-- `LocalSyncStrategy::perform_sync`'s per-asset behavior
(`commands/sync.rs` lines 355-422): passes `check_local_path = true`
(line 380), writes the bytes (oracle `write_ok`), and on success inserts a
`TargetState` with an `rbxasset://` id over the content path and
`local_path` the written file path. -/
def LocalSyncStrategy (write_ok : Asset → Bool)
    (content_path local_file_path : Asset → String) : StrategyModel where
  check_local_path := true
  succeeds := write_ok
  result_id := fun a => "rbxasset://" ++ content_path a
  result_local_path := fun a => some (local_file_path a)
  failure := .ioError

/-- `RobloxSyncStrategy::perform_sync`'s per-asset behavior
(`commands/sync.rs` lines 445-600): passes `check_local_path = false`
(line 465), runs the create/poll/remap machine (oracle `upload_ok`), and on
success inserts a `TargetState` with an `rbxassetid://` id and no
`local_path`; a failed machine raises `SyncError::UploadFailed`. -/
def RobloxSyncStrategy (upload_ok : Asset → Bool) (final_id : Asset → String) :
    StrategyModel where
  check_local_path := false
  succeeds := upload_ok
  result_id := fun a => "rbxassetid://" ++ final_id a
  result_local_path := fun _ => none
  failure := .uploadFailed

/-- One GetAsset response of the remote backend, as the wire gives it to
the rbxcloud client inside `roblox_get_asset`: the operation is answered
(the body carries the `response` object with an asset id), still pending
(the body has no `response` field), or any other API error. -/
inductive BackendPollResponse where
  | answered (asset_id : String)
  | pending
  | apiError
deriving DecidableEq

/-- `roblox_get_asset` (`commands/sync.rs` lines 638-673) as a function of
the backend's response: the rbxcloud client's `AssetGetOperation` does not
wrap `response` in `Option` (the TODO at lines 655-670), so a pending
operation's body fails deserialization inside `.get(..)` and the `?` at
line 653 propagates it as the transparent `SyncError::RbxCloud` error —
exactly like any other API error; an answered operation returns its asset
id unconditionally (line 672). The function has no path that returns
`SyncError::UploadNotDone`. -/
def roblox_get_asset : BackendPollResponse → Except SyncError String
  | .answered asset_id => .ok asset_id
  | .pending => .error .rbxCloud
  | .apiError => .error .rbxCloud

/-- The observable run of the polling loop: `result` is `none` while the
loop is still polling after consuming the scripted responses, `delays` the
sleeps (in whole seconds) performed before each attempt, `failures` the
final value of the `get_failures` counter. -/
structure PollRun where
  result : Option (Except SyncError String)
  delays : List Nat
  failures : Nat

/-- The `max_get_failures` bound of `RobloxSyncStrategy::perform_sync`
(`commands/sync.rs` line 454). -/
def max_get_failures : Nat := 3

/-- The polling loop of `RobloxSyncStrategy::perform_sync`
(`commands/sync.rs` lines 492-572), driven by the script of
`roblox_get_asset` results: each iteration increments `get_idx`, sleeps
`2 ^ get_idx` seconds, then polls; an `Ok` ends the loop, an error
matching `SyncError::UploadNotDone` is not counted (lines 553-555 — an
arm `roblox_get_asset` can never feed), any other error increments
`get_failures` and the loop returns `Err(UploadFailed)` once
`get_failures` reaches the bound. -/
def roblox_poll_loop (bound get_idx get_failures : Nat) :
    List (Except SyncError String) → PollRun
  | [] => ⟨none, [], get_failures⟩
  | r :: rest =>
    let idx := get_idx + 1
    let wait := 2 ^ idx
    match r with
    | .ok asset_id => ⟨some (.ok asset_id), [wait], get_failures⟩
    | .error e =>
      if e = .uploadNotDone then
        let t := roblox_poll_loop bound idx get_failures rest
        ⟨t.result, wait :: t.delays, t.failures⟩
      else
        let f := get_failures + 1
        if bound ≤ f then ⟨some (.error .uploadFailed), [wait], f⟩
        else
          let t := roblox_poll_loop bound idx f rest
          ⟨t.result, wait :: t.delays, t.failures⟩

/-- What one `perform_sync` call leaves behind: the session's assets after
the strategy ran (each successfully synced asset's target map updated in
place), the `(ok_count, err_count)` pair, and the soft errors the strategy
pushed onto the session's error sink. -/
structure SyncBatch where
  assets : List Asset
  ok_count : Nat
  err_count : Nat
  errors : List SyncError

/-- The successful-completion update of either strategy (`commands/sync.rs`
lines 397-407 and 541-548): insert a fresh `TargetState` under the
target's key whose `hash` is the asset's current content hash; on a failed
attempt the asset is left untouched. -/
def apply_strategy (m : StrategyModel) (target_key : String) (a : Asset) : Asset :=
  if m.succeeds a then
    { a with
      targets :=
        putEntry target_key
          ⟨a.hash, m.result_id a, m.result_local_path a⟩ a.targets }
  else
    a

/-- The per-asset effect of one strategy pass: assets filtered out by
`needs_sync` are untouched, the rest get `apply_strategy`. -/
def sync_one (m : StrategyModel) (target_key : String) (force : Bool)
    (prev_state : State) (onDisk : String → Bool) (a : Asset) : Asset :=
  if needs_sync force (getEntry a.ident prev_state.assets) target_key a.hash
      m.check_local_path onDisk then
    apply_strategy m target_key a
  else
    a

/-- A strategy's `perform_sync` over the session's assets
(`commands/sync.rs` lines 355-422 local, 445-600 remote): iterate
`iter_needs_sync`'s selection, update each successful asset and count it,
push one soft error per failed asset and count it, leave skipped assets
alone. (The remote strategy completes its per-asset futures in an
arbitrary order; the counts, the error multiset and each asset's final
record are order-independent, so the session is folded in list order.) -/
def perform_sync (m : StrategyModel) (target_key : String) (force : Bool)
    (prev_state : State) (onDisk : String → Bool) : List Asset → SyncBatch
  | [] => ⟨[], 0, 0, []⟩
  | a :: rest =>
    let t := perform_sync m target_key force prev_state onDisk rest
    if needs_sync force (getEntry a.ident prev_state.assets) target_key a.hash
        m.check_local_path onDisk then
      if m.succeeds a then
        ⟨apply_strategy m target_key a :: t.assets, t.ok_count + 1, t.err_count, t.errors⟩
      else
        ⟨a :: t.assets, t.ok_count, t.err_count + 1, m.failure :: t.errors⟩
    else
      ⟨a :: t.assets, t.ok_count, t.err_count, t.errors⟩

/-- `SyncSession::write_state` (`commands/sync.rs` lines 311-332): reduce
the in-memory assets to the persisted snapshot, keeping only each asset's
target map. -/
def write_state (assets : List Asset) : State :=
  ⟨assets.map fun a => (a.ident, ⟨a.targets⟩)⟩

/-- The outcome of one `sync_with_config` pass: the state written by
`write_state` if it was written, the session's final soft-error sink, and
the function's return value. -/
structure SyncRun where
  persisted : Option State
  soft_errors : List SyncError
  result : Except SyncError Unit

/-- `sync_with_config` from `find_assets` onward (`commands/sync.rs` lines
112-133): the assets and soft errors of discovery enter the session, the
strategy pass updates assets and pushes its soft errors, `write_state`
persists the snapshot (its failure is fatal, `?` at line 329), a codegen
failure is one more soft error, and the pass succeeds iff the sink is
empty, reporting `HadErrors` with the sink's length otherwise. `write_ok`
is the outcome of `State::write_for_config` and `codegen_error` the
optional error of `codegen::generate_all`. -/
def sync_with_config (m : StrategyModel) (target_key : String) (force : Bool)
    (prev_state : State) (onDisk : String → Bool) (discovered : List Asset)
    (discovery_errors : List SyncError) (write_ok : Bool)
    (codegen_error : Option SyncError) : SyncRun :=
  let batch := perform_sync m target_key force prev_state onDisk discovered
  let errors := discovery_errors ++ batch.errors
  if write_ok then
    let errors := errors ++ codegen_error.toList
    { persisted := some (write_state batch.assets)
      soft_errors := errors
      result := if errors = [] then .ok () else .error (.hadErrors errors.length) }
  else
    { persisted := none
      soft_errors := errors
      result := .error .stateWriteFailed }

/-- Concrete strategy used by the idempotence witness: a local strategy
whose writes always succeed at a fixed cache path. -/
def witness_strategy : StrategyModel :=
  LocalSyncStrategy (fun _ => true) (fun _ => "runway/img-17.png")
    (fun _ => "cache/runway/img-17.png")

/-- Filesystem of the idempotence witness: every path exists. -/
def witness_disk : String → Bool := fun _ => true

/-- The scheduler state of `watch` (`commands/watch.rs` lines 164-167):
whether a sync task is in flight (`sync_task.is_some()`) and the
run-again flag. -/
structure WatchState where
  sync_running : Bool
  sync_again : Bool
deriving DecidableEq

/-- One wake-up of the `select!` loop of `watch` (`commands/watch.rs`
lines 179-225): a debounced sync-request signal, a forwarded watcher
error, or the completion of the in-flight sync task (`succeeded` is true
when both the join and the sync result are `Ok`). -/
inductive WatchEvent where
  | debounced_ok
  | debounced_err
  | sync_completed (succeeded : Bool)
deriving DecidableEq

/-- The transition of the watch scheduler on one event, returning the new
state and how many new sync passes are started (`commands/watch.rs` lines
179-225): a signal starts a sync when idle and only sets `sync_again` when
one is running; a completion clears the task slot, and only a successful
completion with `sync_again` set clears the flag and starts one new pass.
`sync_completed` events only occur in states with `sync_running = true`
(the `select!` arm polls the join handle only when it exists). -/
def watch_step (s : WatchState) (e : WatchEvent) : WatchState × Nat :=
  match e with
  | .debounced_ok =>
    if s.sync_running then
      ({ s with sync_again := true }, 0)
    else
      ({ sync_running := true, sync_again := false }, 1)
  | .debounced_err => (s, 0)
  | .sync_completed succeeded =>
    if succeeded then
      if s.sync_again then
        ({ sync_running := true, sync_again := false }, 1)
      else
        ({ sync_running := false, sync_again := s.sync_again }, 0)
    else
      ({ sync_running := false, sync_again := s.sync_again }, 0)

/-- A codegen output configuration (`codegen/mod.rs`): `strip_pre` is the
optional `strip_prefix` path of `transform_ident`, given as its `/`
components; `strip_extension` and `flatten` as in `CodegenConfig`. -/
structure CodegenConfig where
  strip_pre : Option (List String)
  strip_extension : Bool
  flatten : Bool

/-- The codegen tree (`codegen/mod.rs` lines 21-28): nested objects with
backend ids at the leaves. -/
inductive Value where
  | obj (entries : List (String × Value))
  | id (s : String)

/-- The codegen errors of `codegen/mod.rs` the tree builder can raise. -/
inductive CodegenError where
  | missingAsset (ident : String)
  | treeStructure
deriving DecidableEq

/-- Split a character list at every `/` (the components of a
slash-separated ident, as `str::split('/')` produces them). -/
def split_slashes : List Char → List (List Char)
  | [] => [[]]
  | c :: rest =>
    match split_slashes rest with
    | [] => [[]]
    | w :: ws => if c = '/' then [] :: w :: ws else (c :: w) :: ws

/-- `str::split('/')` over a string. -/
def splitIdent (s : String) : List String :=
  (split_slashes s.data).map fun cs => ⟨cs⟩

/-- Join path components with `/` (`Path::to_string_lossy` of a relative
path built from `/`-separated components). -/
def join_parts : List String → String
  | [] => ""
  | [x] => x
  | x :: rest => x ++ "/" ++ join_parts rest

/-- The index of the rightmost `.` in a character list, if any. -/
def lastDotIndex : List Char → Option Nat
  | [] => none
  | c :: rest =>
    match lastDotIndex rest with
    | some i => some (i + 1)
    | none => if c = '.' then some 0 else none

/-- `PathBuf::set_extension("")` on one file name: drop the extension —
everything from the rightmost `.` on — unless there is none or the name's
only `.` is its leading character (a hidden file has no extension). -/
def set_extension_empty (name : String) : String :=
  match lastDotIndex name.data with
  | none => name
  | some 0 => name
  | some i => ⟨name.data.take i⟩

/-- Apply a function to the last element of a list. -/
def map_last (f : String → String) : List String → List String
  | [] => []
  | [x] => [f x]
  | x :: rest => x :: map_last f rest

/-- `transform_ident` (`codegen/mod.rs` lines 30-50): parse the ident as a
path, strip the configured prefix componentwise when it matches (keep the
path unchanged when it does not), optionally drop the last component's
extension, and render back to a string. -/
def transform_ident (ident : String) (config : CodegenConfig) : String :=
  let parts := splitIdent ident
  let parts :=
    match config.strip_pre with
    | some pre => if pre.isPrefixOf parts then parts.drop pre.length else parts
    | none => parts
  let parts := if config.strip_extension then map_last set_extension_empty parts else parts
  join_parts parts

/-- Split a list into its leading components and its last element
(`Vec::pop` of the split parts in `generate_tree`). -/
def split_last : List String → Option (List String × String)
  | [] => none
  | [x] => some ([], x)
  | x :: rest =>
    match split_last rest with
    | some (front, last) => some (x :: front, last)
    | none => none

/-- The descend-and-insert walk of `generate_tree` (`codegen/mod.rs` lines
68-100): walk down `parts`, materializing missing intermediate objects; a
leaf (`Value::Id`) found where the walk needs to continue — or where the
final insert would land — is the `TreeStructure` hard error; the final
insert writes the id under `last_part` in the reached object (a plain
`HashMap::insert`, overwriting whatever the key held). -/
def tree_insert (v : Value) (parts : List String) (last_part asset_id : String) :
    Except CodegenError Value :=
  match v, parts with
  | .id _, _ => .error .treeStructure
  | .obj entries, [] => .ok (.obj (putEntry last_part (.id asset_id) entries))
  | .obj entries, p :: rest =>
    let child :=
      match getEntry p entries with
      | some c => c
      | none => .obj []
    match tree_insert child rest last_part asset_id with
    | .ok c => .ok (.obj (putEntry p c entries))
    | .error e => .error e

/-- One iteration of `generate_tree`'s asset loop (`codegen/mod.rs` lines
59-101): look up the asset's `TargetState` for the target (its absence is
the `MissingAsset` error), transform the ident, and insert the backend id
— at the root under the whole transformed string when flattening,
otherwise down the transformed string's `/` components. -/
def generate_tree_entry (config : CodegenConfig) (target_key : String) (root : Value)
    (ident : String) (asset : AssetState) : Except CodegenError Value :=
  match getEntry target_key asset.targets with
  | none => .error (.missingAsset ident)
  | some target_state =>
    let ident_string := transform_ident ident config
    if config.flatten then
      tree_insert root [] ident_string target_state.id
    else
      match split_last (splitIdent ident_string) with
      | none => .error .treeStructure
      | some (parts, last_part) => tree_insert root parts last_part target_state.id

/-- The asset fold of `generate_tree`: thread the tree through the state's
entries in iteration order, stopping at the first error. -/
def generate_tree_go (config : CodegenConfig) (target_key : String) :
    List (String × AssetState) → Value → Except CodegenError Value
  | [], root => .ok root
  | (ident, asset) :: rest, root =>
    match generate_tree_entry config target_key root ident asset with
    | .ok root' => generate_tree_go config target_key rest root'
    | .error e => .error e

/-- `generate_tree` (`codegen/mod.rs` lines 52-104): fold the state's
assets, in their (lexicographic) iteration order, into a tree rooted at an
empty object. -/
def generate_tree (state : State) (config : CodegenConfig) (target_key : String) :
    Except CodegenError Value :=
  generate_tree_go config target_key state.assets (.obj [])

/-- A two-asset state in lexicographic ident order in which prefix
stripping rewrites only the second ident: `a/b/c.png` keeps its path while
`z/a/b.png` becomes `a/b`, so the longer transformed path is processed
first. -/
def overwrite_state : State :=
  ⟨[("a/b/c.png", ⟨[("t", ⟨"h2", "2", none⟩)]⟩),
    ("z/a/b.png", ⟨[("t", ⟨"h1", "1", none⟩)]⟩)]⟩

/-- Codegen configuration for `overwrite_state`: strip the prefix `z`,
strip extensions, no flattening. -/
def overwrite_config : CodegenConfig := ⟨some ["z"], true, false⟩

/-- The outcome of extracting the operation id in `roblox_create_asset`: a
successful create response either yields the operation id, aborts the
whole process, or is reported as a per-asset soft error. -/
inductive CreateOutcome where
  | panicked
  | soft (e : SyncError)
  | ok (operation_id : String)
deriving DecidableEq

/-- `str::strip_prefix`: the remainder when the string starts with the
prefix. -/
def strip_pre_str (pre s : String) : Option String :=
  if pre.isPrefixOf s then some (s.drop pre.length) else none

/-- The response handling of `roblox_create_asset` (`commands/sync.rs`
lines 628-636) on a successful create request, as a function of the
response's optional `path`: an absent path is the soft `RobloxApi` error
(`ok_or_else`), a present path is stripped of the literal prefix
`operations/` — and the `expect` on that strip panics when the path does
not start with it. -/
def roblox_create_asset_outcome (result_path : Option String) : CreateOutcome :=
  match result_path with
  | none => .soft .robloxApi
  | some operation_path =>
    match strip_pre_str "operations/" operation_path with
    | some operation_id => .ok operation_id
    | none => .panicked

theorem getEntry_putEntry_self {α : Type} (k : String) (v : α) (m : List (String × α)) :
    getEntry k (putEntry k v m) = some v := by
  induction m with
  | nil => simp [getEntry, putEntry]
  | cons hd tl ih =>
    obtain ⟨k', v'⟩ := hd
    by_cases h : k' = k
    · simp [getEntry, putEntry, h]
    · simp [getEntry, putEntry, h, ih]

theorem getEntry_putEntry_ne {α : Type} {k k' : String} (h : k' ≠ k) (v : α)
    (m : List (String × α)) :
    getEntry k' (putEntry k v m) = getEntry k' m := by
  induction m with
  | nil => simp [getEntry, putEntry, Ne.symm h]
  | cons hd tl ih =>
    obtain ⟨k'', v''⟩ := hd
    by_cases hk : k'' = k
    · subst hk
      have : ¬ (k'' = k') := fun hh => h (hh.symm)
      simp [getEntry, putEntry, this]
    · simp only [putEntry, if_neg hk, getEntry]
      by_cases hk' : k'' = k'
      · simp [hk']
      · simp [hk', ih]

theorem roblox_poll_loop_counts {rs : List (Except SyncError String)}
    (hok : ∀ s, Except.ok s ∉ rs)
    (hnd : Except.error SyncError.uploadNotDone ∉ rs) :
    ∀ get_idx get_failures, get_failures < max_get_failures →
      ((roblox_poll_loop max_get_failures get_idx get_failures rs).result =
          some (.error .uploadFailed) ↔
        max_get_failures ≤ get_failures + rs.length) := by
  induction rs with
  | nil =>
    intro gi f hf
    simp only [roblox_poll_loop, List.length_nil]
    constructor
    · intro h; cases h
    · intro h; omega
  | cons r rest ih =>
    intro gi f hf
    have hok' : ∀ s, Except.ok s ∉ rest := fun s hs => hok s (List.mem_cons_of_mem _ hs)
    have hnd' : Except.error SyncError.uploadNotDone ∉ rest :=
      fun hs => hnd (List.mem_cons_of_mem _ hs)
    cases r with
    | ok s => exact absurd (List.mem_cons_self _ _) (hok s)
    | error e =>
      have he : ¬ (e = SyncError.uploadNotDone) := by
        intro h
        subst h
        exact hnd (List.mem_cons_self _ _)
      simp only [roblox_poll_loop]
      rw [if_neg he]
      by_cases hb : max_get_failures ≤ f + 1
      · rw [if_pos hb]
        simp only [List.length_cons]
        constructor
        · intro _; omega
        · intro _; trivial
      · rw [if_neg hb]
        have hf' : f + 1 < max_get_failures := by omega
        rw [ih hok' hnd' (gi + 1) (f + 1) hf']
        simp only [List.length_cons]
        omega

theorem perform_sync_assets (m : StrategyModel) (target_key : String) (force : Bool)
    (prev_state : State) (onDisk : String → Bool) (assets : List Asset) :
    (perform_sync m target_key force prev_state onDisk assets).assets
      = assets.map (sync_one m target_key force prev_state onDisk) := by
  induction assets with
  | nil => rfl
  | cons a rest ih =>
    simp only [perform_sync, sync_one, List.map_cons]
    split
    · split
      · rename_i hn hs
        simp only [apply_strategy, if_pos hs, ih]
      · rename_i hn hs
        simp only [apply_strategy, if_neg hs, ih]
    · simp [ih]

/-- Claim C5: `sync_with_config` returns `Ok` iff the session's accumulated
soft-error sink is empty at the end of the pass, and otherwise returns
`HadErrors` whose `error_count` is the number of collected soft errors; in
both of those cases the new state — the `write_state` snapshot of the
post-strategy assets, successful syncs included — was persisted before the
result was produced, and the only fatal abort of the pass is a state-write
failure. -/
theorem sync_with_config_error_policy (m : StrategyModel) (target_key : String)
    (force : Bool) (prev_state : State) (onDisk : String → Bool)
    (discovered : List Asset) (discovery_errors : List SyncError) (write_ok : Bool)
    (codegen_error : Option SyncError) :
    (write_ok = true →
      ((sync_with_config m target_key force prev_state onDisk discovered
          discovery_errors write_ok codegen_error).result = .ok () ↔
        (sync_with_config m target_key force prev_state onDisk discovered
          discovery_errors write_ok codegen_error).soft_errors = [])) ∧
    ((sync_with_config m target_key force prev_state onDisk discovered
          discovery_errors write_ok codegen_error).soft_errors ≠ [] → write_ok = true →
      (sync_with_config m target_key force prev_state onDisk discovered
          discovery_errors write_ok codegen_error).result =
        .error (.hadErrors (sync_with_config m target_key force prev_state onDisk
          discovered discovery_errors write_ok codegen_error).soft_errors.length)) ∧
    (∀ e, (sync_with_config m target_key force prev_state onDisk discovered
          discovery_errors write_ok codegen_error).result = .error e →
        e = .stateWriteFailed ∧ write_ok = false ∨
        (sync_with_config m target_key force prev_state onDisk discovered
            discovery_errors write_ok codegen_error).persisted =
          some (write_state (perform_sync m target_key force prev_state onDisk
            discovered).assets)) ∧
    ((sync_with_config m target_key force prev_state onDisk discovered
          discovery_errors write_ok codegen_error).result = .ok () →
      (sync_with_config m target_key force prev_state onDisk discovered
          discovery_errors write_ok codegen_error).persisted =
        some (write_state (perform_sync m target_key force prev_state onDisk
          discovered).assets)) := by
  cases write_ok with
  | false =>
    refine ⟨fun h => Bool.noConfusion h, fun _ h => Bool.noConfusion h,
      fun e he => ?_, fun h => ?_⟩
    · left
      simp only [sync_with_config, Bool.false_eq_true, if_false] at he
      cases he
      exact ⟨rfl, rfl⟩
    · simp only [sync_with_config, Bool.false_eq_true, if_false] at h
      cases h
  | true =>
    simp only [sync_with_config, if_pos rfl]
    by_cases hE : discovery_errors ++
        (perform_sync m target_key force prev_state onDisk discovered).errors ++
        codegen_error.toList = []
    · rw [if_pos hE]
      exact ⟨fun _ => ⟨fun _ => hE, fun _ => rfl⟩, fun hne _ => absurd hE hne,
        fun e _ => Or.inr rfl, fun _ => rfl⟩
    · rw [if_neg hE]
      exact ⟨fun _ => ⟨fun h => Except.noConfusion h, fun h => absurd h hE⟩,
        fun _ _ => rfl, fun e _ => Or.inr rfl, fun h => Except.noConfusion h⟩

/-- Claim C9: for either strategy, `(ok_count, err_count)` partitions the
assets selected by `iter_needs_sync`, each counted failure pushes exactly
one error onto the session's error sink, and `ok_count + err_count` never
exceeds the number of discovered assets, so the skipped count
`assets.len() - ok_count - err_count` computed by
`SyncSession::perform_sync` never underflows. -/
theorem perform_sync_counts_partition (m : StrategyModel) (target_key : String)
    (force : Bool) (prev_state : State) (onDisk : String → Bool)
    (assets : List Asset) :
    (perform_sync m target_key force prev_state onDisk assets).ok_count +
        (perform_sync m target_key force prev_state onDisk assets).err_count =
      (iter_needs_sync force assets prev_state target_key m.check_local_path
        onDisk).length ∧
    (perform_sync m target_key force prev_state onDisk assets).errors.length =
      (perform_sync m target_key force prev_state onDisk assets).err_count ∧
    (perform_sync m target_key force prev_state onDisk assets).ok_count +
        (perform_sync m target_key force prev_state onDisk assets).err_count ≤
      assets.length ∧
    assets.length -
        (perform_sync m target_key force prev_state onDisk assets).ok_count -
        (perform_sync m target_key force prev_state onDisk assets).err_count +
        ((perform_sync m target_key force prev_state onDisk assets).ok_count +
          (perform_sync m target_key force prev_state onDisk assets).err_count) =
      assets.length := by
  induction assets with
  | nil => simp [perform_sync, iter_needs_sync]
  | cons a rest ih =>
    obtain ⟨ih1, ih2, ih3, ih4⟩ := ih
    simp only [perform_sync, iter_needs_sync, List.filter_cons] at *
    split
    · split
      · refine ⟨by simpa using by omega, by simpa using ih2, ?_, ?_⟩
        · simp only [List.length_cons]; omega
        · simp only [List.length_cons]; omega
      · refine ⟨?_, ?_, ?_, ?_⟩
        · simpa using by omega
        · simpa using by omega
        · simp only [List.length_cons]; omega
        · simp only [List.length_cons]; omega
    · refine ⟨by simpa using ih1, by simpa using ih2, ?_, ?_⟩
      · simp only [List.length_cons]; omega
      · simp only [List.length_cons]; omega

theorem sync_one_ident (m : StrategyModel) (target_key : String) (force : Bool)
    (prev_state : State) (onDisk : String → Bool) (a : Asset) :
    (sync_one m target_key force prev_state onDisk a).ident = a.ident := by
  simp only [sync_one, apply_strategy]
  split
  · split
    · rfl
    · rfl
  · rfl

/-- Claim C6: an asset's `targets` entry for the current target key is
inserted or overwritten only upon a successful strategy completion for
that asset, and the `TargetState` inserted then has `hash` equal to the
asset's current content hash; every asset that fails or is skipped keeps
its `targets` map exactly as `process_entry` seeded it from the previous
state. -/
theorem target_state_updated_only_on_success (m : StrategyModel) (target_key : String)
    (force : Bool) (prev_state : State) (onDisk : String → Bool) :
    (∀ assets, (perform_sync m target_key force prev_state onDisk assets).assets
        = assets.map (sync_one m target_key force prev_state onDisk)) ∧
    (∀ ident path hash,
      (needs_sync force (getEntry ident prev_state.assets) target_key hash
          m.check_local_path onDisk = true →
        m.succeeds (process_entry prev_state ident path hash) = true →
        (sync_one m target_key force prev_state onDisk
            (process_entry prev_state ident path hash)).targets
          = putEntry target_key
              ⟨hash, m.result_id (process_entry prev_state ident path hash),
                m.result_local_path (process_entry prev_state ident path hash)⟩
              (seed_targets prev_state ident) ∧
        getEntry target_key (sync_one m target_key force prev_state onDisk
            (process_entry prev_state ident path hash)).targets
          = some ⟨hash, m.result_id (process_entry prev_state ident path hash),
              m.result_local_path (process_entry prev_state ident path hash)⟩) ∧
      (needs_sync force (getEntry ident prev_state.assets) target_key hash
          m.check_local_path onDisk = false ∨
          m.succeeds (process_entry prev_state ident path hash) = false →
        (sync_one m target_key force prev_state onDisk
            (process_entry prev_state ident path hash)).targets
          = seed_targets prev_state ident)) := by
  refine ⟨perform_sync_assets m target_key force prev_state onDisk, ?_⟩
  intro ident path hash
  constructor
  · intro hns hsucc
    have h1 : (sync_one m target_key force prev_state onDisk
        (process_entry prev_state ident path hash)).targets
        = putEntry target_key
            ⟨hash, m.result_id (process_entry prev_state ident path hash),
              m.result_local_path (process_entry prev_state ident path hash)⟩
            (seed_targets prev_state ident) := by
      simp only [sync_one, process_entry] at hns ⊢
      rw [if_pos hns]
      simp only [apply_strategy]
      rw [if_pos (show _ = true by exact hsucc)]
    refine ⟨h1, ?_⟩
    rw [h1]
    exact getEntry_putEntry_self _ _ _
  · intro h
    cases h with
    | inl hns =>
      simp only [sync_one, process_entry] at hns ⊢
      rw [if_neg (by simp [hns])]
    | inr hsucc =>
      simp only [sync_one, process_entry] at hsucc ⊢
      split
      · simp only [apply_strategy]
        rw [if_neg (by simp [hsucc])]
      · rfl

/-- Claim C7: for every asset discovered in the current pass that has a
record in the previous state, and for every target key other than the one
being synced, the state persisted at the end of the pass carries exactly
the previous `TargetState` for that key: the persisted snapshot is the
per-asset image of `sync_one`, and `sync_one` only ever touches the
synced target's key. -/
theorem untouched_target_keys_preserved (m : StrategyModel) (target_key : String)
    (force : Bool) (prev_state : State) (onDisk : String → Bool) :
    (∀ discovered,
      (write_state (perform_sync m target_key force prev_state onDisk
          discovered).assets).assets
        = discovered.map fun a =>
            (a.ident,
              AssetState.mk (sync_one m target_key force prev_state onDisk a).targets)) ∧
    (∀ ident path hash k prevA,
      getEntry ident prev_state.assets = some prevA → k ≠ target_key →
      getEntry k (sync_one m target_key force prev_state onDisk
          (process_entry prev_state ident path hash)).targets
        = getEntry k prevA.targets) := by
  constructor
  · intro discovered
    rw [write_state, perform_sync_assets, List.map_map]
    apply List.map_congr_left
    intro a _
    simp [Function.comp, sync_one_ident]
  · intro ident path hash k prevA hprev hk
    have hseed : seed_targets prev_state ident = prevA.targets := by
      simp [seed_targets, hprev]
    simp only [sync_one, process_entry]
    split
    · simp only [apply_strategy]
      split
      · rw [getEntry_putEntry_ne hk]
        exact congrArg (getEntry k) hseed
      · exact congrArg (getEntry k) hseed
    · exact congrArg (getEntry k) hseed

/-- Claim C8: with the force flag disabled and no filesystem changes
between runs, the second run uploads nothing: given the state persisted
after a fully successful first pass for an asset (and, for local targets,
the written artifact still existing at the recorded `local_path`),
`needs_sync` evaluates to false for that asset in the second pass. -/
theorem sync_idempotent_second_run (m : StrategyModel) (target_key : String)
    (prev_state : State) (onDisk : String → Bool) (ident path hash : String)
    (hlocal : m.check_local_path = true →
      ∀ a, ∃ p, m.result_local_path a = some p ∧ onDisk p = true)
    (hsucc : m.succeeds (process_entry prev_state ident path hash) = true) :
    needs_sync false
      (getEntry ident
        (write_state [sync_one m target_key false prev_state onDisk
          (process_entry prev_state ident path hash)]).assets)
      target_key hash m.check_local_path onDisk = false := by
  have hident : (sync_one m target_key false prev_state onDisk
      (process_entry prev_state ident path hash)).ident = ident :=
    sync_one_ident m target_key false prev_state onDisk _
  have hget : getEntry ident
      (write_state [sync_one m target_key false prev_state onDisk
        (process_entry prev_state ident path hash)]).assets
      = some ⟨(sync_one m target_key false prev_state onDisk
          (process_entry prev_state ident path hash)).targets⟩ := by
    simp [write_state, getEntry, hident]
  rw [hget]
  by_cases hns : needs_sync false (getEntry ident prev_state.assets) target_key hash
      m.check_local_path onDisk
  · have h1 : (sync_one m target_key false prev_state onDisk
        (process_entry prev_state ident path hash)).targets
        = putEntry target_key
            ⟨hash, m.result_id (process_entry prev_state ident path hash),
              m.result_local_path (process_entry prev_state ident path hash)⟩
            (seed_targets prev_state ident) := by
      simp only [sync_one, process_entry] at hns ⊢
      rw [if_pos hns]
      simp only [apply_strategy]
      rw [if_pos (show _ = true by exact hsucc)]
    rw [h1]
    simp only [needs_sync, getEntry_putEntry_self]
    cases hc : m.check_local_path with
    | false => simp
    | true =>
      obtain ⟨p, hp, hd⟩ := hlocal hc (process_entry prev_state ident path hash)
      simp [hp, hd]
  · have h0 : (sync_one m target_key false prev_state onDisk
        (process_entry prev_state ident path hash)).targets
        = seed_targets prev_state ident := by
      simp only [sync_one, process_entry] at hns ⊢
      rw [if_neg (by simp [hns])]
    rw [h0]
    cases hprev : getEntry ident prev_state.assets with
    | none =>
      rw [hprev] at hns
      exact absurd rfl hns
    | some prevA =>
      rw [hprev] at hns
      have hseed : seed_targets prev_state ident = prevA.targets := by
        simp [seed_targets, hprev]
      rw [hseed]
      simp only [Bool.not_eq_true] at hns
      obtain ⟨tg⟩ := prevA
      exact hns

theorem sync_idempotent_second_run_witness :
    needs_sync false
      (getEntry "img.png"
        (write_state [sync_one witness_strategy "local" false ⟨[]⟩ witness_disk
          (process_entry ⟨[]⟩ "img.png" "assets/img.png" "h1")]).assets)
      "local" "h1" witness_strategy.check_local_path witness_disk = false :=
  sync_idempotent_second_run witness_strategy "local" ⟨[]⟩ witness_disk "img.png"
    "assets/img.png" "h1"
    (fun _ _ => ⟨"cache/runway/img-17.png", rfl, rfl⟩) rfl

/-- Claim C2, which the code contradicts: `roblox_get_asset` never returns
`SyncError::UploadNotDone` (its last line is unconditionally
`Ok(response.response.asset_id)`, and a pending backend response — one
whose body lacks the `response` field — fails deserialization and
propagates as the generic `RbxCloud` error), so the loop's not-counted
pending arm is dead code, every non-resolved poll response is counted
toward `max_get_failures = 3`, and an always-pending backend marks the
asset failed (`Err(UploadFailed)`) after exactly three polls, sleeping
2, 4, 8 seconds — instead of polling indefinitely as the claim, the
spec's test and the source's own TODO (lines 655-670) require. -/
theorem roblox_poll_pending_counted :
    (∀ r, roblox_get_asset r ≠ .error .uploadNotDone) ∧
    (∀ rs : List BackendPollResponse, (∀ s, BackendPollResponse.answered s ∉ rs) →
      ((roblox_poll_loop max_get_failures 0 0 (rs.map roblox_get_asset)).result
            = some (.error .uploadFailed) ↔
        max_get_failures ≤ rs.length)) ∧
    (∀ n : Nat, max_get_failures ≤ n →
      (roblox_poll_loop max_get_failures 0 0
          ((List.replicate n .pending).map roblox_get_asset)).result
          = some (.error .uploadFailed) ∧
      (roblox_poll_loop max_get_failures 0 0
          ((List.replicate n .pending).map roblox_get_asset)).delays = [2, 4, 8] ∧
      (roblox_poll_loop max_get_failures 0 0
          ((List.replicate n .pending).map roblox_get_asset)).failures = 3) ∧
    max_get_failures = 3 := by
  have hnever : ∀ r, roblox_get_asset r ≠ .error .uploadNotDone := by
    intro r
    cases r <;> simp [roblox_get_asset]
  refine ⟨hnever, ?_, ?_, rfl⟩
  · intro rs hans
    have hok : ∀ s, Except.ok s ∉ rs.map roblox_get_asset := by
      intro s hs
      rw [List.mem_map] at hs
      obtain ⟨r, hr, hmap⟩ := hs
      cases r with
      | answered a =>
        simp only [roblox_get_asset] at hmap
        cases hmap
        exact hans _ hr
      | pending => exact absurd hmap (by simp [roblox_get_asset])
      | apiError => exact absurd hmap (by simp [roblox_get_asset])
    have hnd : Except.error SyncError.uploadNotDone ∉ rs.map roblox_get_asset := by
      intro hs
      rw [List.mem_map] at hs
      obtain ⟨r, hr, hmap⟩ := hs
      exact hnever r hmap
    have h := roblox_poll_loop_counts hok hnd 0 0 (by norm_num [max_get_failures])
    simpa [List.length_map] using h
  · intro n hn
    have hn' : 3 ≤ n := hn
    obtain ⟨k, rfl⟩ : ∃ k, n = 3 + k := ⟨n - 3, by omega⟩
    simp only [List.replicate_add, List.replicate_succ, List.replicate_zero,
      List.nil_append, List.cons_append, List.map_cons]
    simp [roblox_poll_loop, roblox_get_asset, max_get_failures]

/-- Claim C1: the `needs_sync` filter of `iter_needs_sync` holds iff the
force flag is set, or no previous record exists for the asset, or that
record has no `TargetState` under the target's key, or the recorded hash
differs from the asset's current hash, or — only when the strategy checks
local artifacts, which local targets enable and remote targets disable —
the recorded `local_path` is absent or no longer on disk; in every other
case the asset is skipped. -/
theorem needs_sync_matches_spec :
    (∀ (force : Bool) (prev_asset : Option AssetState) (target_key asset_hash : String)
        (check_local_path : Bool) (onDisk : String → Bool),
      needs_sync force prev_asset target_key asset_hash check_local_path onDisk = true ↔
        (force = true ∨
          prev_asset = none ∨
          (∃ prev, prev_asset = some prev ∧ getEntry target_key prev.targets = none) ∨
          (∃ prev ts, prev_asset = some prev ∧ getEntry target_key prev.targets = some ts ∧
            ts.hash ≠ asset_hash) ∨
          (check_local_path = true ∧
            ∃ prev ts, prev_asset = some prev ∧ getEntry target_key prev.targets = some ts ∧
              (ts.local_path = none ∨ ∃ p, ts.local_path = some p ∧ onDisk p = false)))) ∧
    (∀ write_ok content_path local_file_path,
      (LocalSyncStrategy write_ok content_path local_file_path).check_local_path = true) ∧
    (∀ upload_ok final_id,
      (RobloxSyncStrategy upload_ok final_id).check_local_path = false) := by
  refine ⟨?_, fun _ _ _ => rfl, fun _ _ => rfl⟩
  intro force prev_asset target_key asset_hash check_local_path onDisk
  cases force with
  | true => simp [needs_sync]
  | false =>
    cases prev_asset with
    | none => simp [needs_sync]
    | some prev =>
      cases hts : getEntry target_key prev.targets with
      | none => simp [needs_sync, hts]
      | some ts =>
        by_cases hh : ts.hash = asset_hash
        · cases check_local_path with
          | false => simp [needs_sync, hts, hh]
          | true =>
            cases hlp : ts.local_path with
            | none => simp [needs_sync, hts, hh, hlp]
            | some p =>
              cases hod : onDisk p with
              | false => simp [needs_sync, hts, hh, hlp, hod]
              | true => simp [needs_sync, hts, hh, hlp, hod]
        · simp [needs_sync, hts, hh]

/-- Claim C3 counterexample: a running sync completes with an error
(`sync_with_config` returned `HadErrors`, or the join failed) while the
run-again flag is set; the claim says the flag is cleared and exactly one
new sync pass starts, but the scheduler starts none and leaves the flag
set. -/
theorem watch_error_completion_starts_no_sync :
    watch_step ⟨true, true⟩ (.sync_completed false) = (⟨false, true⟩, 0) := rfl

/-- Claim C3, amended: the watch scheduler keeps at most one sync in
flight — a debounced signal during a running sync sets the run-again flag
and starts nothing, a signal while idle starts exactly one pass and clears
the flag — and when the running sync completes successfully with the flag
set, the flag is cleared and exactly one new pass starts immediately; but
when the sync completes with an error, no new pass starts and the flag
stays set until a later signal. -/
theorem watch_single_flight_replay :
    (∀ again : Bool, watch_step ⟨true, again⟩ .debounced_ok = (⟨true, true⟩, 0)) ∧
    (∀ again : Bool, watch_step ⟨false, again⟩ .debounced_ok = (⟨true, false⟩, 1)) ∧
    watch_step ⟨true, true⟩ (.sync_completed true) = (⟨true, false⟩, 1) ∧
    watch_step ⟨true, false⟩ (.sync_completed true) = (⟨false, false⟩, 0) ∧
    (∀ again : Bool,
      watch_step ⟨true, again⟩ (.sync_completed false) = (⟨false, again⟩, 0)) ∧
    (∀ s : WatchState, watch_step s .debounced_err = (s, 0)) := by
  refine ⟨fun again => rfl, fun again => rfl, rfl, rfl, fun again => rfl, fun s => rfl⟩

/-- Claim C4 counterexample: with flattening disabled, the transformed
idents of `overwrite_state` use `a/b` both as a leaf (from `z/a/b.png`)
and as an intermediate node (from `a/b/c.png`), yet `generate_tree`
returns `Ok` — and the returned tree has the leaf `"1"` where the subtree
`{c: "2"}` previously stood, so the subtree was silently overwritten
rather than rejected with `TreeStructure`. -/
theorem generate_tree_silent_overwrite :
    generate_tree overwrite_state overwrite_config "t"
      = .ok (.obj [("a", .obj [("b", .id "1")])]) := rfl

/-- Claim C4, amended: with flattening disabled, `generate_tree` returns
the `TreeStructure` hard error whenever the walk for a longer transformed
path reaches a segment already holding a leaf — in particular for idents
transforming to `a/b` and `a/b/c` processed in lexicographic ident order
with no prefix stripping; but when prefix stripping reorders the
transformed paths so that the longer path is built first, the shorter
ident's final insertion silently overwrites the existing subtree with its
leaf and `generate_tree` returns `Ok`. -/
theorem generate_tree_conflict_cases (hash1 id1 hash2 id2 key : String) :
    generate_tree ⟨[("a/b.png", ⟨[(key, ⟨hash1, id1, none⟩)]⟩),
        ("a/b/c.png", ⟨[(key, ⟨hash2, id2, none⟩)]⟩)]⟩
      ⟨none, true, false⟩ key = .error .treeStructure ∧
    generate_tree ⟨[("a/b/c.png", ⟨[(key, ⟨hash2, id2, none⟩)]⟩),
        ("z/a/b.png", ⟨[(key, ⟨hash1, id1, none⟩)]⟩)]⟩
      ⟨some ["z"], true, false⟩ key
      = .ok (.obj [("a", .obj [("b", .id id1)])]) := by
  constructor
  · simp [generate_tree, generate_tree_go, generate_tree_entry, transform_ident,
      splitIdent, split_slashes, join_parts, map_last, set_extension_empty,
      lastDotIndex, split_last, tree_insert, getEntry, putEntry]
  · simp [generate_tree, generate_tree_go, generate_tree_entry, transform_ident,
      splitIdent, split_slashes, join_parts, map_last, set_extension_empty,
      lastDotIndex, split_last, tree_insert, getEntry, putEntry]

/-- Claim C10: when the create request succeeds but the returned operation
path does not begin with `operations/`, `roblox_create_asset` panics
(aborting the pass) instead of recording a per-asset soft error; an absent
path is returned as the soft `RobloxApi` error; and the non-panicking
guarantee holds exactly when the path starts with `operations/`, in which
case the remainder is the operation id. -/
theorem roblox_create_asset_panics_on_bad_path :
    roblox_create_asset_outcome none = .soft .robloxApi ∧
    (∀ p, "operations/".isPrefixOf p = false →
      roblox_create_asset_outcome (some p) = .panicked) ∧
    (∀ p, "operations/".isPrefixOf p = true →
      roblox_create_asset_outcome (some p)
        = .ok (p.drop "operations/".length)) ∧
    (∀ p, roblox_create_asset_outcome (some p) ≠ .panicked ↔
      "operations/".isPrefixOf p = true) := by
  refine ⟨rfl, ?_, ?_, ?_⟩
  · intro p hp
    simp [roblox_create_asset_outcome, strip_pre_str, hp]
  · intro p hp
    simp [roblox_create_asset_outcome, strip_pre_str, hp]
  · intro p
    cases hp : "operations/".isPrefixOf p with
    | false =>
      simp [roblox_create_asset_outcome, strip_pre_str, hp]
    | true =>
      simp [roblox_create_asset_outcome, strip_pre_str, hp]

end Runway
